import Mathlib

/-!
Verification of the chunking and manifest domain services of the
asset-aware-mcp repository (`src/domain/chunking.py`, `src/domain/services.py`).

Python strings are modelled as `List Char` (Python indexes by code point, which
matches list positions).  Python `int` is modelled as `ℤ`.  The chunking loops
of the source are `while` loops; they are embedded with an explicit fuel
parameter, returning `none` when the fuel is exhausted, so a result of
`some l` corresponds exactly to a terminating run of the Python loop
returning the chunk list `l`.

Floating point: the source computes `int(len(chunk_text) * 0.8)`.  For every
length `n` below 2^50 the IEEE-754 double computation `int(n * 0.8)` equals
`⌊4n/5⌋` (the stored constant 0.8 is slightly above 4/5, and the rounding
error of the product is far below the distance to the next integer), so the
embedding uses `4 * n / 5` on `ℕ`.
-/

namespace AssetAware

/-- Characters treated as whitespace by Python `\s`, `str.strip()` and
`str.split()` for the ASCII texts this code handles. -/
def isPySpace (c : Char) : Bool :=
  c = ' ' || c = '\t' || c = '\n' || c = '\r' || c = '\x0b' || c = '\x0c'

/-- Python `str.strip()`. -/
def pyStrip (l : List Char) : List Char :=
  ((l.dropWhile isPySpace).reverse.dropWhile isPySpace).reverse

/-- Effective index of a Python slice bound `a` for a string of length `n`:
negative indices count from the end and everything is clamped to `[0, n]`. -/
def pySliceIdx (n : ℕ) (a : ℤ) : ℕ :=
  if a < 0 then ((n : ℤ) + a).toNat
  else if a.toNat ≤ n then a.toNat else n

/-- Python `l[a:b]` with full negative-index and clamping semantics. -/
def pySlice (l : List Char) (a b : ℤ) : List Char :=
  (l.take (pySliceIdx l.length b)).drop (pySliceIdx l.length a)

/-- Python `l[a:]`. -/
def pySliceFrom (l : List Char) (a : ℤ) : List Char :=
  pySlice l a l.length

/-- Python `needle in hay` on strings (substring test). -/
def containsSub (needle : List Char) : List Char → Bool
  | [] => needle.isPrefixOf []
  | c :: rest => needle.isPrefixOf (c :: rest) || containsSub needle rest

/-- Python `str.rfind(c)` for a single character: index of the last
occurrence, `-1` if absent. -/
def rfindGo (c : Char) : List Char → ℤ → ℤ → ℤ
  | [], _, best => best
  | x :: xs, i, best => rfindGo c xs (i + 1) (if x = c then i else best)

def rfind (l : List Char) (c : Char) : ℤ :=
  rfindGo c l 0 (-1)

/-- Python `str.split("\n")` (also used for `markdown.split("\n")`). -/
def splitNl : List Char → List (List Char)
  | [] => [[]]
  | c :: rest =>
    if c = '\n' then [] :: splitNl rest
    else
      match splitNl rest with
      | [] => [[c]]
      | piece :: pieces => (c :: piece) :: pieces

-- ============================================================================
-- Data model (chunking.py)
-- ============================================================================

/-- `DocumentType` enumeration. -/
inductive DocumentType where
  | GENERAL
  | TECHNICAL
  | SIMPLE
  | LEGAL
  | MEDICAL
deriving DecidableEq, Repr

/-- `ChunkConfig` dataclass.  The dataclass performs no validation; any field
values are accepted. -/
structure ChunkConfig where
  chunk_size : ℤ := 1000
  chunk_overlap : ℤ := 200
  min_chunk_size : ℤ := 100
  respect_sentences : Bool := true
  respect_paragraphs : Bool := true
  include_metadata : Bool := true
deriving DecidableEq, Repr

/-- `ChunkConfig.for_document_type` preset table. -/
def ChunkConfig.for_document_type : DocumentType → ChunkConfig
  | DocumentType.GENERAL => { chunk_size := 1000, chunk_overlap := 200 }
  | DocumentType.TECHNICAL => { chunk_size := 1500, chunk_overlap := 300 }
  | DocumentType.SIMPLE => { chunk_size := 800, chunk_overlap := 160 }
  | DocumentType.LEGAL => { chunk_size := 1200, chunk_overlap := 400 }
  | DocumentType.MEDICAL => { chunk_size := 1000, chunk_overlap := 250 }

/-- Values of the `metadata` dict of a `Chunk` (`dict[str, str | int]`). -/
inductive MetaVal where
  | strV : List Char → MetaVal
  | intV : ℤ → MetaVal
deriving DecidableEq, Repr

/-- `metadata[key] = value` on the association list modelling the dict. -/
def setMeta (m : List (List Char × MetaVal)) (k : List Char) (v : MetaVal) :
    List (List Char × MetaVal) :=
  if m.any (fun p => p.1 = k) then
    m.map (fun p => if p.1 = k then (k, v) else p)
  else m ++ [(k, v)]

/-- `Chunk` dataclass. -/
structure Chunk where
  text : List Char
  index : ℕ
  start_char : ℤ
  end_char : ℤ
  metadata : List (List Char × MetaVal) := []
deriving DecidableEq, Repr

/-- `Chunk.size` property. -/
def Chunk.size (c : Chunk) : ℕ :=
  c.text.length

-- ============================================================================
-- BasicChunker
-- ============================================================================

/-- `sentence_endings[0]` of `_adjust_to_sentence`: the string of
single-character sentence terminators the loop actually iterates over. -/
def sentenceEndings0 : List Char :=
  ".。!?！？".toList

/-- `sentence_endings[1]`, which the source defines but never iterates over
(the loop runs over `sentence_endings[0]` only). -/
def sentenceEndings1 : List Char :=
  "\n\n".toList

/-- The `best_pos` computation of `_adjust_to_sentence`: maximum over the
terminator characters of `search_region.rfind(ending)`, starting at -1. -/
def bestSentencePos (region : List Char) : ℤ :=
  sentenceEndings0.foldl (fun b c => max b (rfind region c)) (-1)

/-- `BasicChunker._adjust_to_sentence`.  `full_text`, `start` and `end_` are
kept because the source takes them, though its body only uses `chunk_text`. -/
def BasicChunker.adjust_to_sentence (chunk_text full_text : List Char)
    (start end_ : ℤ) : List Char :=
  let search_start : ℕ := 4 * chunk_text.length / 5
  let search_region := chunk_text.drop search_start
  let best_pos := bestSentencePos search_region
  if 0 ≤ best_pos then chunk_text.take (search_start + best_pos.toNat + 1)
  else chunk_text

/-- The interior window text of one iteration of `BasicChunker.chunk`:
`text[start:end]`, sentence-adjusted when `respect_sentences` is set. -/
def BasicChunker.windowText (cfg : ChunkConfig) (text : List Char)
    (start : ℤ) : List Char :=
  let end_ := start + cfg.chunk_size
  let ct0 := pySlice text start end_
  if cfg.respect_sentences then
    BasicChunker.adjust_to_sentence ct0 text start end_
  else ct0

/-- The `while start < len(text)` loop of `BasicChunker.chunk`, with fuel.
`none` means the fuel ran out before the Python loop exited. -/
def BasicChunker.loop (cfg : ChunkConfig) (text : List Char) :
    ℕ → ℤ → ℕ → List Chunk → Option (List Chunk)
  | 0, _, _, _ => none
  | fuel + 1, start, index, chunks =>
    let L : ℤ := text.length
    if start < L then
      let end_ := start + cfg.chunk_size
      if L ≤ end_ then
        let chunk_text := pySliceFrom text start
        if cfg.min_chunk_size ≤ (chunk_text.length : ℤ) then
          some (chunks ++ [{ text := chunk_text, index := index,
                             start_char := start, end_char := L }])
        else some chunks
      else
        let chunk_text := BasicChunker.windowText cfg text start
        let chunks2 :=
          if cfg.min_chunk_size ≤ (chunk_text.length : ℤ) then
            chunks ++ [{ text := chunk_text, index := index,
                         start_char := start,
                         end_char := start + chunk_text.length }]
          else chunks
        let index2 :=
          if cfg.min_chunk_size ≤ (chunk_text.length : ℤ) then index + 1
          else index
        let start2 := start + chunk_text.length - cfg.chunk_overlap
        if L ≤ start2 then some chunks2
        else BasicChunker.loop cfg text fuel start2 index2 chunks2
    else some chunks

/-- `BasicChunker.chunk`. -/
def BasicChunker.chunk (fuel : ℕ) (text : List Char) (cfg : ChunkConfig) :
    Option (List Chunk) :=
  BasicChunker.loop cfg text fuel 0 0 []

-- ============================================================================
-- detect_document_type
-- ============================================================================

/-- Helper turning string literals into the `List Char` string model. -/
def strs (l : List String) : List (List Char) :=
  l.map String.toList

/-- The fixed medical term list of `detect_document_type`. -/
def medical_terms : List (List Char) :=
  strs [r"patient", r"diagnosis", r"treatment", r"clinical", r"drug",
        r"dose", r"mg", r"ml", r"syndrome", r"disease"]

/-- The fixed technical term list of `detect_document_type`. -/
def technical_terms : List (List Char) :=
  strs [r"algorithm", r"implementation", r"function", r"class", r"method",
        r"api", r"code", r"parameter", r"import", r"def "]

/-- The fixed legal term list of `detect_document_type`. -/
def legal_terms : List (List Char) :=
  strs [r"hereby", r"whereas", r"agreement", r"party", r"clause",
        r"section", r"liability", r"indemnify"]

/-- `sum(1 for term in terms if term in text_sample)`. -/
def countHits (terms : List (List Char)) (sample : List Char) : ℕ :=
  terms.countP (fun t => containsSub t sample)

/-- `detect_document_type(text, filename)`. -/
def detect_document_type (text : List Char) (filename : List Char) :
    DocumentType :=
  let text_sample := (text.take 5000).map Char.toLower
  let filename_lower := filename.map Char.toLower
  if (strs [r".md", r".txt", r".rst"]).any
      (fun ext => containsSub ext filename_lower) then
    DocumentType.SIMPLE
  else if 3 ≤ countHits medical_terms text_sample then
    DocumentType.MEDICAL
  else if 3 ≤ countHits technical_terms text_sample then
    DocumentType.TECHNICAL
  else if 3 ≤ countHits legal_terms text_sample then
    DocumentType.LEGAL
  else
    DocumentType.GENERAL

-- ============================================================================
-- services.py: page-marker regex `<!-- Page (\d+) -->`
-- ============================================================================

/-- Numeric value of a digit string (`int(...)` on a `\d+` capture). -/
def decodeDigits (ds : List Char) : ℕ :=
  ds.foldl (fun acc c => acc * 10 + (c.toNat - 48)) 0

/-- Match of the literal-spacing page-marker regex `<!-- Page (\d+) -->` at the
head of `l`: returns (consumed length, captured page number). -/
def matchPageAt (l : List Char) : Option (ℕ × ℕ) :=
  if ("<!-- Page ").toList.isPrefixOf l then
    let rest := l.drop 10
    let ds := rest.takeWhile Char.isDigit
    if ds.length = 0 then none
    else if (" -->").toList.isPrefixOf (rest.drop ds.length) then
      some (10 + ds.length + 4, decodeDigits ds)
    else none
  else none

theorem matchPageAt_pos (l : List Char) (nv : ℕ × ℕ)
    (h : matchPageAt l = some nv) : 0 < nv.1 := by
  unfold matchPageAt at h
  split at h
  · dsimp only at h
    split at h
    · simp at h
    · split at h
      · cases h
        simp
      · simp at h
  · simp at h

/-- `re.search` of the page-marker pattern in a single line: first match's
captured number. -/
def searchPage : List Char → Option ℕ
  | [] => match matchPageAt [] with
          | some nv => some nv.2
          | none => none
  | c :: rest => match matchPageAt (c :: rest) with
                 | some nv => some nv.2
                 | none => searchPage rest

/-- `re.finditer` of the page-marker pattern: list of (start, end, number).
The fuel argument (instantiated with the text length, one unit per scan step)
makes the recursion structural. -/
def pageScanF : ℕ → List Char → ℕ → List (ℕ × ℕ × ℕ)
  | 0, _, _ => []
  | _, [], _ => []
  | fuel + 1, c :: rest, pos =>
    match matchPageAt (c :: rest) with
    | some nv =>
      (pos, pos + nv.1, nv.2) :: pageScanF fuel ((c :: rest).drop nv.1) (pos + nv.1)
    | none => pageScanF fuel rest (pos + 1)

def pageScan (l : List Char) (pos : ℕ) : List (ℕ × ℕ × ℕ) :=
  pageScanF l.length l pos

/-- `ManifestGenerator._find_page_at_position`. -/
def find_page_at_position (markdown : List Char) (position : ℕ) : ℕ :=
  match (pageScan (markdown.take position) 0).getLast? with
  | some m => m.2.2
  | none => 1

-- ============================================================================
-- services.py: ManifestGenerator._parse_sections
-- ============================================================================

/-- `SectionAsset` entity (the fields `_parse_sections` populates). -/
structure SectionAsset where
  id : List Char
  title : List Char
  level : ℕ
  page : ℕ
  start_line : ℕ
  end_line : ℕ
  preview : List Char
deriving DecidableEq, Repr

/-- Length of the maximal run of characters satisfying `p` at the head. -/
def countLeading (p : Char → Bool) (l : List Char) : ℕ :=
  (l.takeWhile p).length

/-- Match of `^(#{1,6})\s+(.+)$` against one line (no newline inside):
returns (level, group 2).  A run of more than six `#` fails (the following
character is `#`, not whitespace, for every backtracking choice); when the
whitespace run extends to the end of the line the greedy `\s+` backtracks by
one so that `.+` can take the final whitespace character. -/
def headerFullMatch (line : List Char) : Option (ℕ × List Char) :=
  let r := countLeading (fun c => c = '#') line
  if 1 ≤ r ∧ r ≤ 6 then
    let rest := line.drop r
    let w := countLeading isPySpace rest
    if w = 0 then none
    else if w < rest.length then some (r, rest.drop w)
    else if 2 ≤ w then some (r, rest.drop (w - 1))
    else none
  else none

/-- Match of `^(#{1,6})\s+` (the boundary pattern of the `end_line` scan):
returns the heading level. -/
def headerPrefixLevel (line : List Char) : Option ℕ :=
  let r := countLeading (fun c => c = '#') line
  if 1 ≤ r ∧ r ≤ 6 then
    match (line.drop r).head? with
    | some c => if isPySpace c then some r else none
    | none => none
  else none

/-- `re.sub(r"\*\*([^*]+)\*\*", r"\1", s)`: strip bold markers. -/
def boldSubF : ℕ → List Char → List Char
  | 0, l => l
  | _, [] => []
  | _ + 1, [c] => [c]
  | fuel + 1, c :: c2 :: rest =>
    if c = '*' ∧ c2 = '*' then
      let run := rest.takeWhile (fun x => x ≠ '*')
      if 1 ≤ run.length ∧ ("**").toList.isPrefixOf (rest.drop run.length) then
        run ++ boldSubF fuel (rest.drop (run.length + 2))
      else
        c :: boldSubF fuel (c2 :: rest)
    else
      c :: boldSubF fuel (c2 :: rest)

def boldSub (l : List Char) : List Char :=
  boldSubF l.length l

/-- `re.sub(r"[^a-z0-9]", "_", s)` applied characterwise. -/
def sanitizeChar (c : Char) : Char :=
  if ('a' ≤ c ∧ c ≤ 'z') ∨ ('0' ≤ c ∧ c ≤ '9') then c else '_'

/-- The `end_line` scan: first line index `j ≥ start` whose line matches
`^(#{1,6})\s+` at a level `≤ level`; defaults to the number of lines. -/
def findEndLineF (lines : List (List Char)) (level : ℕ) : ℕ → ℕ → ℕ
  | 0, _ => lines.length
  | fuel + 1, j =>
    if h : j < lines.length then
      match headerPrefixLevel (lines.get ⟨j, h⟩) with
      | some lv => if lv ≤ level then j else findEndLineF lines level fuel (j + 1)
      | none => findEndLineF lines level fuel (j + 1)
    else lines.length

def findEndLine (lines : List (List Char)) (level : ℕ) (j : ℕ) : ℕ :=
  findEndLineF lines level (lines.length + 1) j

/-- The per-line loop of `_parse_sections`, carrying the running index and
`current_page`. -/
def parseSectionsGo (lines : List (List Char)) :
    List (List Char) → ℕ → ℕ → List SectionAsset
  | [], _, _ => []
  | line :: rest, i, current_page =>
    match searchPage line with
    | some p => parseSectionsGo lines rest (i + 1) p
    | none =>
      match headerFullMatch line with
      | some lv2 =>
        let level := lv2.1
        let title := pyStrip (boldSub (pyStrip lv2.2))
        if title = [] then parseSectionsGo lines rest (i + 1) current_page
        else
          let sec_id :=
            ("sec_").toList ++ ((title.map Char.toLower).map sanitizeChar).take 30
          let end_line := findEndLine lines level (i + 1)
          let content_lines := (lines.drop (i + 1)).take (min (i + 5) end_line - (i + 1))
          let kept := content_lines.filter
            (fun ln => !(pyStrip ln).isEmpty && !(("<!--").toList.isPrefixOf ln))
          let preview := (List.intercalate (" ").toList (kept.map pyStrip)).take 200
          { id := sec_id, title := title, level := level, page := current_page,
            start_line := i, end_line := end_line, preview := preview } ::
            parseSectionsGo lines rest (i + 1) current_page
      | none => parseSectionsGo lines rest (i + 1) current_page

/-- `ManifestGenerator._parse_sections`. -/
def ManifestGenerator.parse_sections (markdown : List Char) : List SectionAsset :=
  parseSectionsGo (splitNl markdown) (splitNl markdown) 0 1

-- ============================================================================
-- services.py: the pipe-table regex
--   (\|[^\n]+\|\n\|[-:\| ]+\|\n(?:\|[^\n]+\|\n?)+)
-- shared verbatim by `_parse_tables` and `extract_table_by_id`.
-- ============================================================================

/-- A match of the table regex, kept in structured form: header line,
separator line (both without their trailing newline) and the data rows, each
with a flag recording whether its optional trailing newline was consumed. -/
structure TableMatch where
  hdr : List Char
  sep : List Char
  rows : List (List Char × Bool)
deriving DecidableEq, Repr

/-- The exact characters one data row consumed. -/
def rowFlat (r : List Char × Bool) : List Char :=
  r.1 ++ (if r.2 then [(Char.ofNat 10)] else [])

/-- The exact substring of the document a `TableMatch` covers
(= `match.group(1)` in the source). -/
def TableMatch.flat (t : TableMatch) : List Char :=
  t.hdr ++ '\n' :: (t.sep ++ '\n' :: (t.rows.map rowFlat).flatten)

theorem TableMatch.flat_len_pos (t : TableMatch) : 0 < t.flat.length := by
  unfold TableMatch.flat
  simp

/-- Characters allowed by the separator-row class `[-:\| ]`. -/
def isSepChar (c : Char) : Bool :=
  c = '-' || c = ':' || c = '|' || c = ' '

/-- Match of `\|[^\n]+\|\n` at the head of `l`: the whole current line must be
`|` + at least one character + `|`, followed by a newline.  Returns the line
(without the newline). -/
def matchHeaderRow (l : List Char) : Option (List Char) :=
  let line := l.takeWhile (fun c => c ≠ '\n')
  if 3 ≤ line.length ∧ line.head? = some '|' ∧ line.getLast? = some '|' ∧
      (l.drop line.length).head? = some '\n' then
    some line
  else none

/-- Match of `\|[-:\| ]+\|\n` at the head of `l`. -/
def matchSepRow (l : List Char) : Option (List Char) :=
  let line := l.takeWhile (fun c => c ≠ '\n')
  if 3 ≤ line.length ∧ line.head? = some '|' ∧ line.getLast? = some '|' ∧
      ((line.drop 1).dropLast.all isSepChar) = true ∧
      (l.drop line.length).head? = some '\n' then
    some line
  else none

/-- Match of one repetition `\|[^\n]+\|\n?` at the head of `l`.  The greedy
`[^\n]+` backtracks so that the closing `\|` lands on the LAST `|` of the
current line; the optional newline is consumed only when that `|` ends the
line and a newline follows.  Returns (row text, newline-consumed flag). -/
def matchDataRow (l : List Char) : Option (List Char × Bool) :=
  match l.head? with
  | some c =>
    if c = '|' then
      let seg := (l.drop 1).takeWhile (fun x => x ≠ '\n')
      let r := rfind seg '|'
      if 1 ≤ r then
        if r.toNat + 1 = seg.length ∧
            (l.drop (seg.length + 1)).head? = some '\n' then
          some ('|' :: seg, true)
        else
          some ('|' :: (seg.take r.toNat ++ ['|']), false)
      else none
    else none
  | none => none

theorem matchDataRow_len_pos (l : List Char) (rb : List Char × Bool)
    (h : matchDataRow l = some rb) : 0 < (rowFlat rb).length := by
  unfold matchDataRow at h
  split at h
  · split at h
    · dsimp only at h
      split at h
      · split at h
        · cases h
          simp [rowFlat]
        · cases h
          simp [rowFlat]
      · simp at h
    · simp at h
  · simp at h

/-- The greedy `(?:\|[^\n]+\|\n?)+` repetition: as many data rows as match. -/
def dataRowsF : ℕ → List Char → List (List Char × Bool)
  | 0, _ => []
  | fuel + 1, l =>
    match matchDataRow l with
    | none => []
    | some rb => rb :: dataRowsF fuel (l.drop (rowFlat rb).length)

def dataRowsGo (l : List Char) : List (List Char × Bool) :=
  dataRowsF l.length l

/-- Match of the full table pattern at the head of `l`. -/
def tableMatchAt (l : List Char) : Option TableMatch :=
  match matchHeaderRow l with
  | none => none
  | some hdr =>
    let rest1 := l.drop (hdr.length + 1)
    match matchSepRow rest1 with
    | none => none
    | some sep =>
      let rest2 := rest1.drop (sep.length + 1)
      match dataRowsGo rest2 with
      | [] => none
      | row :: rows => some { hdr := hdr, sep := sep, rows := row :: rows }

/-- `re.finditer` of the table pattern: scan left to right, non-overlapping,
resuming after each match. -/
def tableScanF : ℕ → List Char → ℕ → List (ℕ × TableMatch)
  | 0, _, _ => []
  | _, [], _ => []
  | fuel + 1, c :: rest, pos =>
    match tableMatchAt (c :: rest) with
    | some t =>
      (pos, t) :: tableScanF fuel ((c :: rest).drop t.flat.length)
        (pos + t.flat.length)
    | none => tableScanF fuel rest (pos + 1)

def tableScan (l : List Char) (pos : ℕ) : List (ℕ × TableMatch) :=
  tableScanF l.length l pos

-- ============================================================================
-- services.py: ManifestGenerator._parse_tables / AssetExtractor
-- ============================================================================

/-- `TableAsset` entity. -/
structure TableAsset where
  id : List Char
  page : ℕ
  caption : List Char
  preview : List Char
  markdown : List Char
  row_count : ℤ
  col_count : ℤ
  has_header : Bool
  source : List Char
deriving DecidableEq, Repr

/-- Big-endian decimal digits of `n` (fuel-structural; `fuel ≥ 1 + n`
suffices since the value shrinks at every division). -/
def decDigits : ℕ → ℕ → List Char
  | 0, _ => []
  | fuel + 1, n => if n = 0 then [] else decDigits fuel (n / 10) ++ [Nat.digitChar (n % 10)]

/-- Python `str(n)` for a natural number. -/
def decimalStr (n : ℕ) : List Char :=
  if n = 0 then ['0'] else decDigits (n + 1) n

/-- The sequential table id `f"tab_{n}"`. -/
def tabId (n : ℕ) : List Char :=
  ("tab_").toList ++ decimalStr n

/-- The body of the `_parse_tables` loop, carrying the enumeration index. -/
def parseTablesGo (markdown : List Char) :
    ℕ → List (ℕ × TableMatch) → List TableAsset
  | _, [] => []
  | idx, (pos, tm) :: rest =>
    let table_text := tm.flat
    let rows := (splitNl (pyStrip table_text)).filter
      (fun rw => !(pyStrip rw).isEmpty)
    let row_count : ℤ := (rows.length : ℤ) - 1
    let col_count : ℤ :=
      match rows.head? with
      | some r0 => (r0.countP (fun c => c = '|') : ℤ) - 1
      | none => 0
    let page := find_page_at_position markdown pos
    let preview := (table_text.take 100).map (fun c => if c = '\n' then ' ' else c)
    { id := tabId (idx + 1), page := page, caption := [], preview := preview,
      markdown := table_text, row_count := row_count, col_count := col_count,
      has_header := true, source := ("pymupdf").toList } ::
      parseTablesGo markdown (idx + 1) rest

/-- `ManifestGenerator._parse_tables`. -/
def ManifestGenerator.parse_tables (markdown : List Char) : List TableAsset :=
  parseTablesGo markdown 0 (tableScan markdown 0)

/-- The scan loop of `extract_table_by_id`. -/
def extractGo : ℕ → List (ℕ × TableMatch) → List Char → Option (List Char)
  | _, [], _ => none
  | idx, (_, tm) :: rest, table_id =>
    if tabId (idx + 1) = table_id then some tm.flat
    else extractGo (idx + 1) rest table_id

/-- `AssetExtractor.extract_table_by_id`. -/
def AssetExtractor.extract_table_by_id (markdown table_id : List Char) :
    Option (List Char) :=
  extractGo 0 (tableScan markdown 0) table_id

-- ============================================================================
-- SemanticChunker: the HEADING_PATTERN
--   ^(?: #{1,6}\s+.+ | [A-Z][A-Z\s]{5,50}$ | \d+\.\s+[A-Z].{5,50}$ ) , MULTILINE
-- ============================================================================

def isUpperAZ (c : Char) : Bool :=
  decide ('A' ≤ c ∧ c ≤ 'Z')

/-- Last index of `l` whose character satisfies `p`, as Python-style ℤ
(-1 when absent). -/
def rfindPGo (p : Char → Bool) : List Char → ℤ → ℤ → ℤ
  | [], _, best => best
  | x :: xs, i, best => rfindPGo p xs (i + 1) (if p x then i else best)

def rfindP (l : List Char) (p : Char → Bool) : ℤ :=
  rfindPGo p l 0 (-1)

/-- Alternative 1, `#{1,6}\s+.+` (`.` does not match newline, `\s` does):
returns the number of characters consumed.  A `#`-run longer than 6 fails;
when the whitespace run reaches the end of the string, the greedy `\s+`
backtracks to the last non-newline position inside the run so that `.+` can
match at least one character. -/
def matchA1 (l : List Char) : Option ℕ :=
  let r := countLeading (fun c => c = '#') l
  if 1 ≤ r ∧ r ≤ 6 then
    let rest := l.drop r
    let w := countLeading isPySpace rest
    if w = 0 then none
    else
      let rest2 := rest.drop w
      if rest2.isEmpty then
        let j := rfindP rest (fun c => c ≠ '\n')
        if 1 ≤ j then
          some (r + j.toNat + countLeading (fun c => c ≠ '\n') (rest.drop j.toNat))
        else none
      else some (r + w + countLeading (fun c => c ≠ '\n') rest2)
  else none

/-- Boundary test for a MULTILINE `$`: end of string or just before `\n`. -/
def atLineBoundary : List Char → Bool
  | [] => true
  | c :: _ => c = '\n'

/-- Descending search for the largest repetition count `m ∈ [5, mtry]` of
alternative 2 whose following position is a line boundary. -/
def findA2M (rest : List Char) : ℕ → Option ℕ
  | 0 => none
  | m + 1 =>
    if 5 ≤ m + 1 ∧ atLineBoundary (rest.drop (m + 1)) = true then some (m + 1)
    else findA2M rest m

/-- Alternative 2, `[A-Z][A-Z\s]{5,50}$`. -/
def matchA2 (l : List Char) : Option ℕ :=
  match l with
  | [] => none
  | c :: rest =>
    if isUpperAZ c then
      let run := countLeading (fun x => isUpperAZ x || isPySpace x) rest
      match findA2M rest (min run 50) with
      | some m => some (1 + m)
      | none => none
    else none

/-- Alternative 3, `\d+\.\s+[A-Z].{5,50}$`.  The `.`-class excludes `\n`, so
the greedy `{5,50}` can only stop at the end of the non-newline run, which
must have length between 5 and 50. -/
def matchA3 (l : List Char) : Option ℕ :=
  let d := countLeading Char.isDigit l
  if d = 0 then none
  else if (l.drop d).head? = some '.' then
    let rest := l.drop (d + 1)
    let w := countLeading isPySpace rest
    if w = 0 then none
    else
      match (rest.drop w).head? with
      | some c =>
        if isUpperAZ c then
          let rr := countLeading (fun x => x ≠ '\n') (rest.drop (w + 1))
          if 5 ≤ rr ∧ rr ≤ 50 then some (d + 1 + w + 1 + rr) else none
        else none
      | none => none
  else none

/-- The full HEADING_PATTERN at one position (ordered alternation). -/
def matchHeadingAt (l : List Char) : Option ℕ :=
  (matchA1 l).orElse (fun _ => (matchA2 l).orElse (fun _ => matchA3 l))

theorem matchA1_pos (l : List Char) (n : ℕ) (h : matchA1 l = some n) : 0 < n := by
  simp only [matchA1] at h
  split at h
  · split at h
    · simp at h
    · split at h
      · split at h
        · cases h
          rename_i hr _ _ _
          omega
        · simp at h
      · cases h
        rename_i hr _ _
        omega
  · simp at h

theorem findA2M_ge (rest : List Char) (k m : ℕ) (h : findA2M rest k = some m) :
    5 ≤ m := by
  induction k with
  | zero => simp [findA2M] at h
  | succ k ih =>
    unfold findA2M at h
    split at h
    · cases h
      rename_i hc
      exact hc.1
    · exact ih h

theorem matchHeadingAt_pos (l : List Char) (n : ℕ)
    (h : matchHeadingAt l = some n) : 0 < n := by
  unfold matchHeadingAt at h
  rcases h1 : matchA1 l with _ | n1
  · rw [h1] at h
    simp only [Option.orElse] at h
    rcases h2 : matchA2 l with _ | n2
    · rw [h2] at h
      simp only [Option.orElse] at h
      -- alternative 3
      simp only [matchA3] at h
      split at h
      · simp at h
      · split at h
        · split at h
          · simp at h
          · split at h
            · split at h
              · split at h
                · cases h
                  omega
                · simp at h
              · simp at h
            · simp at h
        · simp at h
    · rw [h2] at h
      simp only [Option.orElse] at h
      cases h
      unfold matchA2 at h2
      split at h2
      · simp at h2
      · split at h2
        · dsimp only at h2
          split at h2
          · cases h2
            omega
          · simp at h2
        · simp at h2
  · rw [h1] at h
    simp only [Option.orElse] at h
    cases h
    exact matchA1_pos _ _ h1

/-- `HEADING_PATTERN.finditer`: positions must be at the string start or just
after a newline (MULTILINE `^`); scanning resumes after each match. -/
def headingScanF : ℕ → List Char → ℕ → Bool → List (ℕ × ℕ)
  | 0, _, _, _ => []
  | _, [], _, _ => []
  | fuel + 1, c :: rest, pos, atStart =>
    match (if atStart then matchHeadingAt (c :: rest) else none) with
    | some n =>
      let consumed := (c :: rest).take n
      (pos, n) :: headingScanF fuel ((c :: rest).drop n) (pos + n)
        (consumed.getLast? = some '\n')
    | none => headingScanF fuel rest (pos + 1) (c = '\n')

def headingScan (l : List Char) (pos : ℕ) (atStart : Bool) : List (ℕ × ℕ) :=
  headingScanF l.length l pos atStart

/-- Python `text[a:b]` for natural (non-negative, clamped) indices. -/
def sliceN (l : List Char) (a b : ℕ) : List Char :=
  (l.take b).drop a

-- ============================================================================
-- SemanticChunker
-- ============================================================================

/-- One element of the section dictionaries built by `_split_by_headings`
(keys `text`, `start`, `end`, `heading`). -/
structure HSection where
  text : List Char
  start : ℕ
  stop : ℕ
  heading : List Char
deriving DecidableEq, Repr

/-- Build the between-headings sections from the match list. -/
def mkSections (text : List Char) : List (ℕ × ℕ) → List HSection
  | [] => []
  | [(s, n)] =>
    [{ text := sliceN text s text.length, start := s, stop := text.length,
       heading := (pyStrip (sliceN text s (s + n))).take 50 }]
  | (s, n) :: (s2, n2) :: rest =>
    { text := sliceN text s s2, start := s, stop := s2,
      heading := (pyStrip (sliceN text s (s + n))).take 50 } ::
      mkSections text ((s2, n2) :: rest)

/-- `SemanticChunker._split_by_headings`. -/
def SemanticChunker.split_by_headings (text : List Char) : List HSection :=
  let ms := headingScan text 0 true
  match ms with
  | [] => [{ text := text, start := 0, stop := text.length, heading := [] }]
  | (s0, _) :: _ =>
    let secs := mkSections text ms
    if 0 < s0 then
      { text := text.take s0, start := 0, stop := s0, heading := [] } :: secs
    else secs

/-- One `PARA_SEPARATOR` (`\n\s*\n`) match at the head of `l`: number of
characters consumed.  The greedy `\s*` backtracks to the last newline inside
the whitespace run following the first newline. -/
def paraSepAt (l : List Char) : Option ℕ :=
  match l with
  | [] => none
  | c :: rest =>
    if c = '\n' then
      let run := countLeading isPySpace rest
      let j := rfind (rest.take run) '\n'
      if 0 ≤ j then some (j.toNat + 2) else none
    else none

theorem paraSepAt_pos (l : List Char) (n : ℕ) (h : paraSepAt l = some n) :
    0 < n := by
  unfold paraSepAt at h
  split at h
  · simp at h
  · split at h
    · dsimp only at h
      split at h
      · cases h
        omega
      · simp at h
    · simp at h

/-- `PARA_SEPARATOR.finditer`. -/
def paraScanF : ℕ → List Char → ℕ → List (ℕ × ℕ)
  | 0, _, _ => []
  | _, [], _ => []
  | fuel + 1, c :: rest, pos =>
    match paraSepAt (c :: rest) with
    | some n => (pos, n) :: paraScanF fuel ((c :: rest).drop n) (pos + n)
    | none => paraScanF fuel rest (pos + 1)

def paraScan (l : List Char) (pos : ℕ) : List (ℕ × ℕ) :=
  paraScanF l.length l pos

/-- `re.split`: the pieces of `text` between the separator matches. -/
def piecesGo (text : List Char) (cur : ℕ) : List (ℕ × ℕ) → List (List Char)
  | [] => [sliceN text cur text.length]
  | (s, n) :: rest => sliceN text cur s :: piecesGo text (s + n) rest

/-- The paragraph-accumulation loop of `_split_by_paragraphs`, carrying
`current_text`, `current_start`, `chunk_index` and the emitted chunks. -/
def paraLoop (cfg : ChunkConfig) :
    List (List Char) → List Char → ℤ → ℕ → List Chunk → List Chunk
  | [], ct, cs, ci, chunks =>
    if cfg.min_chunk_size ≤ (ct.length : ℤ) then
      chunks ++ [{ text := ct, index := ci, start_char := cs,
                   end_char := cs + ct.length }]
    else chunks
  | piece :: rest, ct, cs, ci, chunks =>
    let para := pyStrip piece
    if para.isEmpty then paraLoop cfg rest ct cs ci chunks
    else if cfg.chunk_size < ((ct.length + para.length + 2 : ℕ) : ℤ) then
      let emit := cfg.min_chunk_size ≤ (ct.length : ℤ)
      let chunks2 :=
        if emit then
          chunks ++ [{ text := ct, index := ci, start_char := cs,
                       end_char := cs + ct.length }]
        else chunks
      let ci2 := if emit then ci + 1 else ci
      if 0 < cfg.chunk_overlap ∧ ¬ct.isEmpty then
        let overlap_text := pySlice ct (-cfg.chunk_overlap) ct.length
        let ct2 := overlap_text ++ '\n' :: '\n' :: para
        let cs2 := cs + ct2.length - overlap_text.length
        paraLoop cfg rest ct2 cs2 ci2 chunks2
      else
        let ct2 := para
        let cs2 := cs + ct2.length + 2
        paraLoop cfg rest ct2 cs2 ci2 chunks2
    else
      let ct2 := if ct.isEmpty then para else ct ++ '\n' :: '\n' :: para
      paraLoop cfg rest ct2 cs ci chunks

/-- `SemanticChunker._split_by_paragraphs`. -/
def SemanticChunker.split_by_paragraphs (text : List Char) (offset : ℤ)
    (cfg : ChunkConfig) : List Chunk :=
  paraLoop cfg (piecesGo text 0 (paraScan text 0)) [] offset 0 []

/-- The relabelling of BasicChunker fallback chunks inside
`SemanticChunker.chunk` (`bc.index = ...; bc.start_char += ...`). -/
def relabelBasic : List Chunk → ℕ → ℤ → List Char → List Chunk
  | [], _, _, _ => []
  | bc :: rest, ci, off, h =>
    { bc with
      index := ci
      start_char := bc.start_char + off
      end_char := bc.end_char + off
      metadata := setMeta bc.metadata ("heading").toList (MetaVal.strV h) } ::
      relabelBasic rest (ci + 1) off h

/-- The relabelling of paragraph chunks inside `SemanticChunker.chunk`. -/
def relabelPara : List Chunk → ℕ → List Char → List Chunk
  | [], _, _ => []
  | pc :: rest, ci, h =>
    { pc with
      index := ci
      metadata := setMeta pc.metadata ("heading").toList (MetaVal.strV h) } ::
      relabelPara rest (ci + 1) h

/-- The per-section loop of `SemanticChunker.chunk`. -/
def semGo (fuel : ℕ) (cfg : ChunkConfig) :
    List HSection → ℕ → List Chunk → Option (List Chunk)
  | [], _, chunks => some chunks
  | sec :: rest, ci, chunks =>
    if (sec.text.length : ℤ) ≤ cfg.chunk_size then
      if cfg.min_chunk_size ≤ (sec.text.length : ℤ) then
        semGo fuel cfg rest (ci + 1)
          (chunks ++ [{ text := sec.text, index := ci,
                        start_char := (sec.start : ℤ),
                        end_char := (sec.stop : ℤ),
                        metadata := [(("heading").toList, MetaVal.strV sec.heading)] }])
      else semGo fuel cfg rest ci chunks
    else
      let para_chunks :=
        SemanticChunker.split_by_paragraphs sec.text (sec.start : ℤ) cfg
      let fallBack : Bool :=
        match para_chunks with
        | [pc] => decide (cfg.chunk_size < (pc.size : ℤ))
        | _ => false
      if fallBack then
        match BasicChunker.chunk fuel sec.text cfg with
        | none => none
        | some basic_chunks =>
          semGo fuel cfg rest (ci + basic_chunks.length)
            (chunks ++ relabelBasic basic_chunks ci (sec.start : ℤ) sec.heading)
      else
        semGo fuel cfg rest (ci + para_chunks.length)
          (chunks ++ relabelPara para_chunks ci sec.heading)

/-- `SemanticChunker.chunk`.  The fuel is consumed only by BasicChunker
fallback calls. -/
def SemanticChunker.chunk (fuel : ℕ) (text : List Char) (cfg : ChunkConfig) :
    Option (List Chunk) :=
  semGo fuel cfg (SemanticChunker.split_by_headings text) 0 []

-- ============================================================================
-- PageAwareChunker: PAGE_MARKER = <!--\s*Page\s+(\d+)\s*-->
-- ============================================================================

/-- Match of the flexible-whitespace PAGE_MARKER at the head of `l`:
(consumed length, page number). -/
def matchPageMarkerAt (l : List Char) : Option (ℕ × ℕ) :=
  if ("<!--").toList.isPrefixOf l then
    let r1 := l.drop 4
    let w1 := countLeading isPySpace r1
    let r2 := r1.drop w1
    if ("Page").toList.isPrefixOf r2 then
      let r3 := r2.drop 4
      let w2 := countLeading isPySpace r3
      if w2 = 0 then none
      else
        let r4 := r3.drop w2
        let ds := r4.takeWhile Char.isDigit
        if ds.length = 0 then none
        else
          let r5 := r4.drop ds.length
          let w3 := countLeading isPySpace r5
          if ("-->").toList.isPrefixOf (r5.drop w3) then
            some (4 + w1 + 4 + w2 + ds.length + w3 + 3, decodeDigits ds)
          else none
    else none
  else none

theorem matchPageMarkerAt_pos (l : List Char) (nv : ℕ × ℕ)
    (h : matchPageMarkerAt l = some nv) : 0 < nv.1 := by
  unfold matchPageMarkerAt at h
  split at h
  · dsimp only at h
    split at h
    · split at h
      · simp at h
      · split at h
        · simp at h
        · split at h
          · cases h
            simp
          · simp at h
    · simp at h
  · simp at h

/-- `PAGE_MARKER.finditer`: (start, end, page number) triples. -/
def pageMarkerScanF : ℕ → List Char → ℕ → List (ℕ × ℕ × ℕ)
  | 0, _, _ => []
  | _, [], _ => []
  | fuel + 1, c :: rest, pos =>
    match matchPageMarkerAt (c :: rest) with
    | some nv =>
      (pos, pos + nv.1, nv.2) ::
        pageMarkerScanF fuel ((c :: rest).drop nv.1) (pos + nv.1)
    | none => pageMarkerScanF fuel rest (pos + 1)

def pageMarkerScan (l : List Char) (pos : ℕ) : List (ℕ × ℕ × ℕ) :=
  pageMarkerScanF l.length l pos

/-- The relabelling of semantic sub-chunks inside `PageAwareChunker.chunk`. -/
def relabelPage : List Chunk → ℕ → ℤ → ℕ → List Chunk
  | [], _, _, _ => []
  | sc :: rest, ci, off, num =>
    { sc with
      index := ci
      start_char := sc.start_char + off
      end_char := sc.end_char + off
      metadata := setMeta sc.metadata ("page").toList (MetaVal.intV num) } ::
      relabelPage rest (ci + 1) off num

/-- The per-page loop of `PageAwareChunker.chunk`. -/
def pageGo (fuel : ℕ) (cfg : ChunkConfig) (text : List Char) :
    List (ℕ × ℕ × ℕ) → ℕ → List Chunk → Option (List Chunk)
  | [], _, chunks => some chunks
  | (_, e, num) :: rest, ci, chunks =>
    let start := e
    let stop := match rest.head? with
                | some m2 => m2.1
                | none => text.length
    let page_text := pyStrip (sliceN text start stop)
    if (page_text.length : ℤ) ≤ cfg.chunk_size then
      if cfg.min_chunk_size ≤ (page_text.length : ℤ) then
        pageGo fuel cfg text rest (ci + 1)
          (chunks ++ [{ text := page_text, index := ci,
                        start_char := (start : ℤ), end_char := (stop : ℤ),
                        metadata := [(("page").toList, MetaVal.intV num)] }])
      else pageGo fuel cfg text rest ci chunks
    else
      match SemanticChunker.chunk fuel page_text cfg with
      | none => none
      | some scs =>
        pageGo fuel cfg text rest (ci + scs.length)
          (chunks ++ relabelPage scs ci (start : ℤ) num)

/-- `PageAwareChunker.chunk`. -/
def PageAwareChunker.chunk (fuel : ℕ) (text : List Char) (cfg : ChunkConfig) :
    Option (List Chunk) :=
  match pageMarkerScan text 0 with
  | [] => SemanticChunker.chunk fuel text cfg
  | m :: ms => pageGo fuel cfg text (m :: ms) 0 []

-- ============================================================================
-- C1: BasicChunker termination
-- ============================================================================

/-- A 20-character text of letters `a`. -/
def c1text : List Char :=
  List.replicate 20 'a'

/-- A degenerate but constructible config with `chunk_overlap = chunk_size`. -/
def c1cfg : ChunkConfig :=
  { chunk_size := 5, chunk_overlap := 5, min_chunk_size := 1 }

/-- The chunk the diverging loop emits on every iteration. -/
def c1chunk (idx : ℕ) : Chunk :=
  { text := List.replicate 5 'a', index := idx, start_char := 0, end_char := 5 }

theorem c1loop_none : ∀ fuel idx acc,
    BasicChunker.loop c1cfg c1text fuel 0 idx acc = none := by
  intro fuel
  induction fuel with
  | zero => intro idx acc; rfl
  | succ n ih =>
    intro idx acc
    have hstep : BasicChunker.loop c1cfg c1text (n + 1) 0 idx acc
        = BasicChunker.loop c1cfg c1text n 0 (idx + 1) (acc ++ [c1chunk idx]) := rfl
    rw [hstep]
    exact ih (idx + 1) (acc ++ [c1chunk idx])

/-- C1: the claim states that `BasicChunker.chunk` terminates for every input
and every config, the implementation guarding against infinite loops
defensively.  The code has no such guard: on a 20-character text with
`chunk_size = 5, chunk_overlap = 5` the window start advances by
`len(chunk) - overlap = 0` on every iteration, so the `while` loop never
exits — the embedded loop returns no result for any amount of fuel. -/
theorem c1_basic_chunk_never_terminates :
    ∀ fuel, BasicChunker.chunk fuel c1text c1cfg = none :=
  fun fuel => c1loop_none fuel 0 []

-- ============================================================================
-- C2: _adjust_to_sentence ignores blank-line breaks
-- ============================================================================

/-- A window whose last 20% (`drop 8` of 11 characters) contains a blank-line
break `\n\n` and no sentence-terminator character. -/
def c2window : List Char :=
  ("aaaaaaaa\n\nb").toList

/-- C2: the claim states the window is shrunk at the last sentence terminator
OR blank-line paragraph break in the last 20%.  The source defines
`sentence_endings = [".。!?！？", "\n\n"]` but iterates only over
`sentence_endings[0]`, so a window whose search region contains `\n\n` and no
terminator character is returned unshrunk. -/
theorem c2_blank_line_break_ignored :
    BasicChunker.adjust_to_sentence c2window c2window 0 11 = c2window
    ∧ containsSub sentenceEndings1 (c2window.drop (4 * c2window.length / 5)) = true
    ∧ (c2window.drop (4 * c2window.length / 5)).all
        (fun c => !sentenceEndings0.contains c) = true := by
  refine ⟨rfl, rfl, ?_⟩
  decide

-- ============================================================================
-- C5: section boundaries
-- ============================================================================

/-- The markdown of the claim: `# Title`, `## A`, content, `## B`, content. -/
def c5md : List Char :=
  ("# Title\n## A\nc\n## B\nc").toList

/-- C5: the claim states the section "Title" has `end_line` equal to the line
index of `## A` (which is line 1).  In the code a section ends only at the
next heading of the SAME OR SHALLOWER level; `## A` (level 2) is deeper than
`# Title` (level 1), so "Title" runs to the end of the document
(`end_line = 5`), not to line 1. -/
theorem c5_title_section_does_not_end_at_A :
    (ManifestGenerator.parse_sections c5md).map
        (fun s => (s.title, s.start_line, s.end_line))
      = [(("Title").toList, 0, 5), (("A").toList, 1, 3), (("B").toList, 3, 5)]
    ∧ (splitNl c5md).length = 5 := by
  exact ⟨rfl, rfl⟩

/-- C5 (amended): on `# Title`, `## A`, content, `## B`, content, the section
"Title" owns the whole document (its `end_line` is the line count 5, since
`## A` is deeper), while "A" ends exactly where "B" begins. -/
theorem c5_sections_amended :
    ManifestGenerator.parse_sections c5md =
      [{ id := ("sec_title").toList, title := ("Title").toList, level := 1,
         page := 1, start_line := 0, end_line := 5,
         preview := ("## A c ## B c").toList },
       { id := ("sec_a").toList, title := ("A").toList, level := 2,
         page := 1, start_line := 1, end_line := 3,
         preview := ("c").toList },
       { id := ("sec_b").toList, title := ("B").toList, level := 2,
         page := 1, start_line := 3, end_line := 5,
         preview := ("c").toList }] := by
  rfl

-- ============================================================================
-- C8: chunk offset ordering
-- ============================================================================

/-- Two markdown sections whose second paragraph split exposes the
`current_start` bookkeeping of `_split_by_paragraphs`. -/
def c8text : List Char :=
  ("# a\nab\n\ncd\n# b\nZZ").toList

def c8cfg : ChunkConfig :=
  { chunk_size := 3, chunk_overlap := 0, min_chunk_size := 0 }

/-- Whether the `start_char` fields of a chunk list are non-decreasing. -/
def startsNonDecreasing (l : List Chunk) : Bool :=
  (l.zip l.tail).all (fun p => decide (p.1.start_char ≤ p.2.start_char))

/-- C8: the claim states chunks are always produced in non-decreasing
`start_char` order.  `SemanticChunker` advances `current_start` by
`len(new_paragraph) + 2` instead of by the flushed buffer's extent, so on
this input the emitted `start_char` sequence is `[0, 8, 12, 11, 19]`, which
decreases from 12 to 11; moreover the chunk textually equal to `cd` (which
occurs at offset 8) is labelled `start_char = 12`. -/
theorem c8_start_chars_not_monotone :
    (SemanticChunker.chunk 0 c8text c8cfg).map (fun l => l.map Chunk.start_char)
      = some [0, 8, 12, 11, 19]
    ∧ (SemanticChunker.chunk 0 c8text c8cfg).map startsNonDecreasing
      = some false
    ∧ (SemanticChunker.chunk 0 c8text c8cfg).map
        (fun l => l.map (fun c => (c.text, c.start_char)))
      = some [([], 0), (("# a\nab").toList, 8), (("cd").toList, 12),
              ([], 11), (("# b\nZZ").toList, 19)]
    ∧ sliceN c8text 8 10 = ("cd").toList
    ∧ sliceN c8text 12 14 ≠ ("cd").toList := by
  refine ⟨rfl, rfl, rfl, rfl, by decide⟩

-- ============================================================================
-- C9: detect_document_type and filename handling
-- ============================================================================

/-- A filename whose EXTENSION is `.pdf` but which contains `.txt` as a
substring. -/
def c9name : List Char :=
  ("report.txt.pdf").toList

/-- The filename extension in the sense of the claim (modelled from the
spec's words: the suffix starting at the last dot). -/
def fileExtension (filename : List Char) : List Char :=
  let i := rfind filename '.'
  if 0 ≤ i then filename.drop i.toNat else []

/-- C9: the claim states SIMPLE is returned exactly when the filename's
extension is `.md`/`.txt`/`.rst`.  The code tests `ext in filename_lower`
(substring containment), so `report.txt.pdf` — extension `.pdf` — is
classified SIMPLE. -/
theorem c9_extension_check_is_substring :
    detect_document_type [] c9name = DocumentType.SIMPLE
    ∧ fileExtension c9name = (".pdf").toList
    ∧ fileExtension c9name ∉ strs [r".md", r".txt", r".rst"] := by
  refine ⟨rfl, rfl, ?_⟩
  decide

/-- C9 (amended): SIMPLE is returned iff the lowercased filename CONTAINS one
of the substrings `.md`/`.txt`/`.rst`; otherwise the first of
MEDICAL → TECHNICAL → LEGAL whose fixed term list scores at least 3 substring
hits against the lowercased first 5000 characters wins, else GENERAL. -/
theorem c9_detect_characterization (text filename : List Char) :
    (detect_document_type text filename = DocumentType.SIMPLE ↔
      (strs [r".md", r".txt", r".rst"]).any
        (fun ext => containsSub ext (filename.map Char.toLower)) = true)
    ∧ ((strs [r".md", r".txt", r".rst"]).any
        (fun ext => containsSub ext (filename.map Char.toLower)) = false →
      detect_document_type text filename =
        (if 3 ≤ countHits medical_terms ((text.take 5000).map Char.toLower) then
          DocumentType.MEDICAL
         else if 3 ≤ countHits technical_terms ((text.take 5000).map Char.toLower) then
          DocumentType.TECHNICAL
         else if 3 ≤ countHits legal_terms ((text.take 5000).map Char.toLower) then
          DocumentType.LEGAL
         else DocumentType.GENERAL)) := by
  unfold detect_document_type
  constructor
  · constructor
    · intro h
      by_contra hc
      simp only [Bool.not_eq_true] at hc
      rw [if_neg (by simp [hc])] at h
      split at h
      · exact absurd h (by decide)
      · split at h
        · exact absurd h (by decide)
        · split at h
          · exact absurd h (by decide)
          · exact absurd h (by decide)
    · intro h
      rw [if_pos (by simp [h])]
  · intro h
    rw [if_neg (by simp [h])]

theorem c9_detect_witness :
    detect_document_type [] c9name = DocumentType.SIMPLE
    ∧ detect_document_type ("hereby whereas agreement").toList [] =
        DocumentType.LEGAL := by
  constructor
  · exact (c9_detect_characterization [] c9name).1.mpr (by decide)
  · have h := (c9_detect_characterization ("hereby whereas agreement").toList []).2
    rw [h (by decide)]
    decide

-- ============================================================================
-- C10: ChunkConfig is unvalidated
-- ============================================================================

/-- A config violating the spec invariant `chunk_overlap < chunk_size`,
constructed without any error. -/
def c10bad : ChunkConfig :=
  { chunk_size := 4, chunk_overlap := 9, min_chunk_size := 1 }

/-- C10: `ChunkConfig` performs no validation — a config with
`chunk_overlap ≥ chunk_size` is constructible and is processed unchecked by
the chunking strategies, while the five `for_document_type` presets all
satisfy `chunk_overlap < chunk_size`. -/
theorem c10_chunkconfig_unvalidated :
    c10bad.chunk_size ≤ c10bad.chunk_overlap
    ∧ (∀ dt, (ChunkConfig.for_document_type dt).chunk_overlap <
        (ChunkConfig.for_document_type dt).chunk_size)
    ∧ BasicChunker.chunk 2 ("abc").toList c10bad =
        some [{ text := ("abc").toList, index := 0, start_char := 0, end_char := 3 }]
    ∧ SemanticChunker.chunk 2 ("abc").toList c10bad =
        some [{ text := ("abc").toList, index := 0, start_char := 0, end_char := 3,
                metadata := [(("heading").toList, MetaVal.strV [])] }]
    ∧ PageAwareChunker.chunk 2 ("abc").toList c10bad =
        some [{ text := ("abc").toList, index := 0, start_char := 0, end_char := 3,
                metadata := [(("heading").toList, MetaVal.strV [])] }] := by
  refine ⟨by decide, fun dt => by cases dt <;> decide, rfl, rfl, rfl⟩

-- ============================================================================
-- C3: empty / whitespace input
-- ============================================================================

def c3wsCfg : ChunkConfig :=
  { chunk_size := 10, chunk_overlap := 2, min_chunk_size := 1 }

/-- C3 (counterexample): the claim states every strategy returns the empty
chunk sequence on all-whitespace input for every config.  BasicChunker does
not strip the window text, so a single space reaching `min_chunk_size = 1`
is emitted as a chunk. -/
theorem c3_whitespace_yields_chunk :
    BasicChunker.chunk 2 [' '] c3wsCfg
      = some [{ text := [' '], index := 0, start_char := 0, end_char := 1 }]
    ∧ [' '].all isPySpace = true
    ∧ BasicChunker.chunk 2 [' '] c3wsCfg ≠ some [] := by
  refine ⟨rfl, rfl, by decide⟩

theorem c3_split_by_paragraphs_nil (cfg : ChunkConfig)
    (h : 1 ≤ cfg.min_chunk_size) :
    SemanticChunker.split_by_paragraphs [] 0 cfg = [] := by
  have h1 : SemanticChunker.split_by_paragraphs [] 0 cfg
      = if cfg.min_chunk_size ≤ ((0 : ℕ) : ℤ) then
          [{ text := [], index := 0, start_char := 0, end_char := 0 }]
        else [] := rfl
  rw [h1, if_neg (by push_cast; omega)]

/-- C3 (amended): on the EMPTY string every strategy returns the empty chunk
sequence, provided `min_chunk_size ≥ 1` (with `min_chunk_size ≤ 0` even the
empty string produces an empty-text chunk from SemanticChunker); on
all-whitespace input the output can be non-empty, because whitespace counts
toward `min_chunk_size`. -/
theorem c3_empty_input_amended (cfg : ChunkConfig) (fuel : ℕ)
    (h : 1 ≤ cfg.min_chunk_size) :
    BasicChunker.chunk (fuel + 1) [] cfg = some []
    ∧ SemanticChunker.chunk fuel [] cfg = some []
    ∧ PageAwareChunker.chunk fuel [] cfg = some [] := by
  have hsem : SemanticChunker.chunk fuel [] cfg = some [] := by
    show semGo fuel cfg
      [{ text := [], start := 0, stop := 0, heading := [] }] 0 [] = some []
    simp only [semGo]
    rcases le_or_lt ((List.length ([] : List Char) : ℤ)) cfg.chunk_size with hcs | hcs
    · rw [if_pos hcs, if_neg (by simp; omega)]
    · rw [if_neg (by omega)]
      have hpc : SemanticChunker.split_by_paragraphs [] ((0 : ℕ) : ℤ) cfg = [] := by
        have := c3_split_by_paragraphs_nil cfg h
        simpa using this
      rw [hpc]
      simp [semGo, relabelPara]
  refine ⟨rfl, hsem, ?_⟩
  show SemanticChunker.chunk fuel [] cfg = some []
  exact hsem

theorem c3_empty_input_witness :
    (1 : ℤ) ≤ ({} : ChunkConfig).min_chunk_size
    ∧ BasicChunker.chunk 1 [] {} = some []
    ∧ SemanticChunker.chunk 0 [] {} = some []
    ∧ PageAwareChunker.chunk 0 [] {} = some [] := by
  have h := c3_empty_input_amended {} 0 (by decide)
  exact ⟨by decide, h.1, h.2.1, h.2.2⟩

-- ============================================================================
-- C4: table row_count
-- ============================================================================

/-- A markdown pipe table with one header row, one separator row, and two
data rows. -/
def c4md : List Char :=
  ("| A | B |\n| --- | --- |\n| 1 | 2 |\n| 3 | 4 |\n").toList

/-- The number of data rows of a table block in the sense of the claim
(modelled from the spec's words: non-blank rows with both the header row and
the separator row excluded). -/
def specDataRowCount (tableMarkdown : List Char) : ℤ :=
  (((splitNl (pyStrip tableMarkdown)).filter
      (fun rw => !(pyStrip rw).isEmpty)).length : ℤ) - 2

/-- C4 (counterexample): the claim states `row_count = k` for a table with
`k` data rows (header and separator both excluded).  On a table with 2 data
rows the code reports `row_count = 3`: it subtracts only the separator line,
keeping the header in the count. -/
theorem c4_row_count_includes_header :
    (ManifestGenerator.parse_tables c4md).map (fun t => t.row_count) = [3]
    ∧ (ManifestGenerator.parse_tables c4md).map
        (fun t => specDataRowCount t.markdown) = [2] := by
  exact ⟨rfl, rfl⟩

theorem parseTablesGo_row_count (md : List Char) :
    ∀ (ms : List (ℕ × TableMatch)) (idx : ℕ) (t : TableAsset),
      t ∈ parseTablesGo md idx ms →
      t.row_count = specDataRowCount t.markdown + 1 := by
  intro ms
  induction ms with
  | nil =>
    intro idx t ht
    simp [parseTablesGo] at ht
  | cons head tail ih =>
    intro idx t ht
    obtain ⟨pos, tm⟩ := head
    simp only [parseTablesGo] at ht
    rcases List.mem_cons.mp ht with h1 | h2
    · subst h1
      simp only [specDataRowCount]
      omega
    · exact ih (idx + 1) t h2

/-- C4 (amended): for every markdown and every `TableAsset` produced by
`_parse_tables`, `row_count` is `k + 1` where `k` is the number of data rows
of the emitted table block (non-blank rows minus header minus separator):
only the separator row is excluded, the header row is counted. -/
theorem c4_row_count_amended (md : List Char) (t : TableAsset)
    (ht : t ∈ ManifestGenerator.parse_tables md) :
    t.row_count = specDataRowCount t.markdown + 1 :=
  parseTablesGo_row_count md (tableScan md 0) 0 t ht

/-- The one `TableAsset` that `_parse_tables` yields on `c4md`. -/
def c4tab : TableAsset :=
  { id := ("tab_1").toList, page := 1, caption := [],
    preview := ("| A | B | | --- | --- | | 1 | 2 | | 3 | 4 | ").toList,
    markdown := c4md, row_count := 3, col_count := 2,
    has_header := true, source := ("pymupdf").toList }

theorem c4_row_count_witness :
    c4tab.row_count = specDataRowCount c4tab.markdown + 1 :=
  c4_row_count_amended c4md c4tab (by decide)

-- ============================================================================
-- C6: chunk size bound
-- ============================================================================

/-- Two small paragraphs around one 30-character paragraph. -/
def c6text : List Char :=
  ("ab\n\ncccccccccccccccccccccccccccccc\n\nde").toList

def c6cfg : ChunkConfig :=
  { chunk_size := 10, chunk_overlap := 0, min_chunk_size := 1 }

/-- C6 (counterexample): the claim states every non-trailing, non-adjusted
chunk of every strategy satisfies `size ≤ chunk_size + small_tolerance`.
`SemanticChunker`'s paragraph accumulation flushes a buffer holding an entire
oversized paragraph: here the middle chunk has size 30 = 3 × `chunk_size`,
it is followed by another chunk (so it is not the trailing partial), and the
paragraph path performs no sentence adjustment.  The single-oversized-chunk
fallback does not fire because three chunks are produced. -/
theorem c6_semantic_oversized_interior_chunk :
    (SemanticChunker.chunk 0 c6text c6cfg).map (fun l => l.map Chunk.size)
      = some [2, 30, 2]
    ∧ c6cfg.chunk_size = 10
    ∧ (SemanticChunker.chunk 0 c6text c6cfg).map (fun l => l.map Chunk.start_char)
      = some [0, 32, 36] := by
  exact ⟨rfl, rfl, rfl⟩

theorem pySliceIdx_le (n : ℕ) (a : ℤ) : pySliceIdx n a ≤ n := by
  unfold pySliceIdx
  split_ifs <;> omega

theorem pySlice_length (l : List Char) (a b : ℤ) :
    (pySlice l a b).length = pySliceIdx l.length b - pySliceIdx l.length a := by
  have hb := pySliceIdx_le l.length b
  unfold pySlice
  simp only [List.length_drop, List.length_take]
  omega

theorem pySlice_window_le (l : List Char) (a C : ℤ) (hC : 0 ≤ C) :
    ((pySlice l a (a + C)).length : ℤ) ≤ C := by
  rw [pySlice_length]
  unfold pySliceIdx
  split_ifs <;> omega

theorem pySliceFrom_le (l : List Char) (a C : ℤ)
    (hL : (l.length : ℤ) ≤ a + C) (ha : a < l.length) :
    ((pySliceFrom l a).length : ℤ) ≤ C := by
  unfold pySliceFrom
  rw [pySlice_length]
  unfold pySliceIdx
  split_ifs <;> omega

theorem adjust_length_le (ct ft : List Char) (s e : ℤ) :
    (BasicChunker.adjust_to_sentence ct ft s e).length ≤ ct.length := by
  show (if 0 ≤ bestSentencePos (ct.drop (4 * ct.length / 5)) then
      ct.take (4 * ct.length / 5 +
        (bestSentencePos (ct.drop (4 * ct.length / 5))).toNat + 1)
    else ct).length ≤ ct.length
  split
  · simp only [List.length_take]
    omega
  · exact Nat.le_refl _

theorem windowText_le (cfg : ChunkConfig) (text : List Char) (start : ℤ)
    (hC : 0 ≤ cfg.chunk_size) :
    ((BasicChunker.windowText cfg text start).length : ℤ) ≤ cfg.chunk_size := by
  show ((if cfg.respect_sentences then
      BasicChunker.adjust_to_sentence (pySlice text start (start + cfg.chunk_size))
        text start (start + cfg.chunk_size)
    else pySlice text start (start + cfg.chunk_size)).length : ℤ) ≤ cfg.chunk_size
  split
  · calc ((BasicChunker.adjust_to_sentence
        (pySlice text start (start + cfg.chunk_size)) text start
        (start + cfg.chunk_size)).length : ℤ)
        ≤ ((pySlice text start (start + cfg.chunk_size)).length : ℤ) := by
          exact_mod_cast adjust_length_le _ _ _ _
      _ ≤ cfg.chunk_size := pySlice_window_le text start cfg.chunk_size hC
  · exact pySlice_window_le text start cfg.chunk_size hC

theorem basic_loop_size_bound (cfg : ChunkConfig) (text : List Char)
    (hC : 0 ≤ cfg.chunk_size) :
    ∀ (fuel : ℕ) (start : ℤ) (idx : ℕ) (acc l : List Chunk),
      (∀ c ∈ acc, (c.size : ℤ) ≤ cfg.chunk_size) →
      BasicChunker.loop cfg text fuel start idx acc = some l →
      ∀ c ∈ l, (c.size : ℤ) ≤ cfg.chunk_size := by
  intro fuel
  induction fuel with
  | zero =>
    intro start idx acc l hacc hrun
    simp [BasicChunker.loop] at hrun
  | succ n ih =>
    intro start idx acc l hacc hrun
    simp only [BasicChunker.loop] at hrun
    split at hrun
    · split at hrun
      · -- trailing window
        split at hrun
        · cases hrun
          intro c hc
          rcases List.mem_append.mp hc with h | h
          · exact hacc c h
          · have hce := List.mem_singleton.mp h
            subst hce
            show ((pySliceFrom text start).length : ℤ) ≤ cfg.chunk_size
            exact pySliceFrom_le text start cfg.chunk_size (by omega) (by omega)
        · cases hrun
          exact hacc
      · -- interior window
        have hw := windowText_le cfg text start hC
        have hacc2 : ∀ c ∈ (if cfg.min_chunk_size ≤
            ((BasicChunker.windowText cfg text start).length : ℤ) then
              acc ++ [{ text := BasicChunker.windowText cfg text start,
                        index := idx, start_char := start,
                        end_char := start +
                          (BasicChunker.windowText cfg text start).length }]
            else acc), (c.size : ℤ) ≤ cfg.chunk_size := by
          split
          · intro c hc
            rcases List.mem_append.mp hc with h | h
            · exact hacc c h
            · have hce := List.mem_singleton.mp h
              subst hce
              exact hw
          · exact hacc
        split at hrun
        · cases hrun
          exact hacc2
        · exact ih _ _ _ _ hacc2 hrun
    · cases hrun
      exact hacc

/-- C6 (amended): for BasicChunker with a non-negative `chunk_size`, EVERY
emitted chunk (interior, sentence-adjusted or trailing) satisfies
`size ≤ chunk_size`, with no tolerance needed: the sentence adjustment only
shrinks the window and the trailing window is at most `chunk_size` long.
The original claim fails for SemanticChunker (see the counterexample). -/
theorem c6_basic_size_bound (fuel : ℕ) (text : List Char) (cfg : ChunkConfig)
    (l : List Chunk) (hC : 0 ≤ cfg.chunk_size)
    (h : BasicChunker.chunk fuel text cfg = some l) :
    ∀ c ∈ l, (c.size : ℤ) ≤ cfg.chunk_size := by
  refine basic_loop_size_bound cfg text hC fuel 0 0 [] l ?_ h
  intro c hc
  simp at hc

def w6cfg : ChunkConfig :=
  { chunk_size := 5, chunk_overlap := 1, min_chunk_size := 1 }

def w6text : List Char :=
  ("hello. world.").toList

theorem c6_basic_size_bound_witness :
    (0 : ℤ) ≤ w6cfg.chunk_size
    ∧ BasicChunker.chunk 20 w6text w6cfg = some
        [{ text := ("hello").toList, index := 0, start_char := 0, end_char := 5 },
         { text := ("o. wo").toList, index := 1, start_char := 4, end_char := 9 },
         { text := ("orld.").toList, index := 2, start_char := 8, end_char := 13 }]
    ∧ ∀ c ∈ [{ text := ("hello").toList, index := 0, start_char := 0,
               end_char := 5 },
             { text := ("o. wo").toList, index := 1, start_char := 4,
               end_char := 9 },
             { text := ("orld.").toList, index := 2, start_char := 8,
               end_char := (13 : ℤ) }],
        ((Chunk.size c : ℕ) : ℤ) ≤ w6cfg.chunk_size := by
  refine ⟨by decide, rfl, ?_⟩
  exact c6_basic_size_bound 20 w6text w6cfg _ (by decide) rfl

-- ============================================================================
-- C7: extract_table_by_id round-trips _parse_tables
-- ============================================================================

theorem decodeDigits_append (ds : List Char) (c : Char) :
    decodeDigits (ds ++ [c]) = decodeDigits ds * 10 + (c.toNat - 48) := by
  unfold decodeDigits
  rw [List.foldl_append]
  rfl

theorem decDigits_decode : ∀ (fuel n : ℕ), n ≤ fuel →
    decodeDigits (decDigits fuel n) = n := by
  intro fuel
  induction fuel with
  | zero =>
    intro n hn
    have hn0 : n = 0 := Nat.le_zero.mp hn
    subst hn0
    rfl
  | succ f ih =>
    intro n hn
    unfold decDigits
    split
    · rename_i h0
      subst h0
      rfl
    · rename_i h0
      rw [decodeDigits_append]
      have hdiv : n / 10 ≤ f := by
        have : n / 10 < n := Nat.div_lt_self (Nat.pos_of_ne_zero h0) (by omega)
        omega
      rw [ih (n / 10) hdiv]
      have hd : ∀ d, d < 10 → (Nat.digitChar d).toNat - 48 = d := by decide
      rw [hd (n % 10) (Nat.mod_lt n (by omega))]
      omega

theorem decimalStr_decode (n : ℕ) : decodeDigits (decimalStr n) = n := by
  unfold decimalStr
  split
  · rename_i h0
    subst h0
    rfl
  · exact decDigits_decode (n + 1) n (by omega)

theorem decimalStr_inj (a b : ℕ) (h : decimalStr a = decimalStr b) : a = b := by
  have ha := decimalStr_decode a
  rw [h, decimalStr_decode] at ha
  omega

theorem tabId_inj (a b : ℕ) (h : tabId a = tabId b) : a = b := by
  unfold tabId at h
  exact decimalStr_inj a b (List.append_cancel_left h)

theorem parseTablesGo_id_ge (md : List Char) :
    ∀ (ms : List (ℕ × TableMatch)) (k : ℕ) (t : TableAsset),
      t ∈ parseTablesGo md k ms → ∃ j, k ≤ j ∧ t.id = tabId (j + 1) := by
  intro ms
  induction ms with
  | nil =>
    intro k t ht
    simp [parseTablesGo] at ht
  | cons head tail ih =>
    intro k t ht
    obtain ⟨pos, tm⟩ := head
    simp only [parseTablesGo] at ht
    rcases List.mem_cons.mp ht with h1 | h2
    · subst h1
      exact ⟨k, Nat.le_refl k, rfl⟩
    · obtain ⟨j, hj, hjid⟩ := ih (k + 1) t h2
      exact ⟨j, by omega, hjid⟩

theorem extractGo_finds (md : List Char) :
    ∀ (ms : List (ℕ × TableMatch)) (idx : ℕ) (t : TableAsset),
      t ∈ parseTablesGo md idx ms →
      extractGo idx ms t.id = some t.markdown := by
  intro ms
  induction ms with
  | nil =>
    intro idx t ht
    simp [parseTablesGo] at ht
  | cons head tail ih =>
    intro idx t ht
    obtain ⟨pos, tm⟩ := head
    simp only [parseTablesGo] at ht
    rcases List.mem_cons.mp ht with h1 | h2
    · subst h1
      simp [extractGo]
    · obtain ⟨j, hj, hjid⟩ := parseTablesGo_id_ge md tail (idx + 1) t h2
      simp only [extractGo]
      rw [if_neg ?hne]
      case hne =>
        intro he
        rw [hjid] at he
        have := tabId_inj (idx + 1) (j + 1) he
        omega
      exact ih (idx + 1) t h2

theorem extractGo_none (md : List Char) :
    ∀ (ms : List (ℕ × TableMatch)) (idx : ℕ) (tid : List Char),
      tid ∉ (parseTablesGo md idx ms).map TableAsset.id →
      extractGo idx ms tid = none := by
  intro ms
  induction ms with
  | nil =>
    intro idx tid hnid
    rfl
  | cons head tail ih =>
    intro idx tid hnid
    obtain ⟨pos, tm⟩ := head
    simp only [parseTablesGo, List.map_cons, List.mem_cons] at hnid
    push_neg at hnid
    simp only [extractGo]
    rw [if_neg (fun he => hnid.1 he.symm)]
    exact ih (idx + 1) tid hnid.2

/-- C7: for every markdown, `extract_table_by_id` re-runs exactly the same
scan as `_parse_tables`: for every produced `TableAsset t` it returns
`t.markdown` when given `t.id`, and returns `none` for any id that is not
one of the sequential `tab_{k}` ids of a table match. -/
theorem c7_extract_round_trip (md : List Char) :
    (∀ t ∈ ManifestGenerator.parse_tables md,
      AssetExtractor.extract_table_by_id md t.id = some t.markdown)
    ∧ (∀ tid, tid ∉ (ManifestGenerator.parse_tables md).map TableAsset.id →
      AssetExtractor.extract_table_by_id md tid = none) := by
  constructor
  · intro t ht
    exact extractGo_finds md (tableScan md 0) 0 t ht
  · intro tid hnid
    exact extractGo_none md (tableScan md 0) 0 tid hnid

theorem c7_extract_round_trip_witness :
    AssetExtractor.extract_table_by_id c4md c4tab.id = some c4tab.markdown
    ∧ AssetExtractor.extract_table_by_id c4md (("tab_9").toList) = none := by
  constructor
  · exact (c7_extract_round_trip c4md).1 c4tab (by decide)
  · exact (c7_extract_round_trip c4md).2 (("tab_9").toList) (by decide)

end AssetAware




